import Mathlib

/-!
Verification of the eit-stream EIT streaming engine (src/main.rs).

The definitions below are a shallow embedding of the engine code:

* `EitItem`, `Eit`, `Service` mirror the structures used by the per-service
  state machine `Service::clear` (main.rs lines 309-363).
* `Service.clear` embeds `Service::clear` (lines 328-362).  The Rust method
  reads the wall clock internally; here the clock value `now` is a parameter
  (the specification's injectable Clock).  The method can panic: when the
  age-out branch runs `self.schedule.items.remove(0)` on an empty vector;
  the embedding returns `Option Service`, with `none` standing for that panic.
* `eitBuild` embeds the initial materialization walk of `wrap`
  (lines 577-585), returning both the post-walk EPG event list (the walk
  mutates `event.codepage`) and the constructed schedule items.
* `fill_null_ts`, `cycleLen`, `drainChunks` embed the buffer padding
  (lines 512-522) and the paced drain loop (lines 663-675), tracking buffer
  lengths in bytes.
* `splitn2` / `outputOpen` embed `Output::open` (lines 113-127); the result
  `panicked` stands for the out-of-bounds `dst[1]` indexing panic.
* `default_rate`, `rate_limit_bytes`, `pps_nanos` embed the rate setup
  (lines 596-602); `pps_nanos` returns `none` for the division-by-zero panic.

Machine integers (`u64` timestamps, `u32` durations, `u8` versions) are
modelled as `Nat`; the only wrapping arithmetic the code performs is the
explicit `% 32` on table versions, which is kept literally.
-/

namespace EitStream

/-- One EIT event row, as used by the engine: `event_id`, `start` (Unix
seconds, u64), `duration` (seconds, u32), `status` (DVB running status),
`codepage`, and the text carried by the descriptors. -/
structure EitItem where
  event_id : Nat
  start : Nat
  duration : Nat
  status : Nat
  codepage : Nat
  title : String
  description : String
deriving DecidableEq

/-- One DVB EIT table (mpegts `Eit` as the engine uses it): header fields,
a 5-bit version, and the ordered item list. -/
structure Eit where
  table_id : Nat
  pnr : Nat
  tsid : Nat
  onid : Nat
  version : Nat
  items : List EitItem
deriving DecidableEq

/-- Per-service state: resolved identifiers plus the two owned EIT tables
(main.rs `struct Service`, lines 309-324). -/
structure Service where
  onid : Nat
  tsid : Nat
  codepage : Nat
  pnr : Nat
  present : Eit
  schedule : Eit
deriving DecidableEq

/-- The promotion block of `Service::clear` (lines 343-349): if `present`
is empty, clone the first schedule item into it; if the schedule is empty
too, leave the state unchanged (the Rust code returns). -/
def promote (s : Service) : Service :=
  match s.present.items with
  | _ :: _ => s
  | [] =>
    match s.schedule.items with
    | [] => s
    | it :: _ => { s with present := { s.present with items := [it] } }

/-- The tail of `Service::clear` after the age-out block (lines 343-362):
promotion, the readiness check `event.start > current_time`, attaching the
second schedule item as "following", and marking the first present item
with `status = 4`. -/
def clearRest (now : Nat) (s : Service) : Service :=
  match (promote s).present.items with
  | [] => promote s
  | e :: rest =>
    if now < e.start then promote s
    else
      match (promote s).schedule.items.get? 1 with
      | some it =>
        { promote s with
          present := { (promote s).present with items := { e with status := 4 } :: (rest ++ [it]) } }
      | none =>
        { promote s with
          present := { (promote s).present with items := { e with status := 4 } :: rest } }

/-- `Service::clear` (lines 328-362) at clock value `now`.  The age-out
block removes the head of both `present.items` and `schedule.items` and
bumps both versions mod 32; `schedule.items.remove(0)` on an empty vector
panics in Rust, modelled as `none`. -/
def Service.clear (now : Nat) (s : Service) : Option Service :=
  match s.present.items with
  | [] => some (clearRest now s)
  | e :: prest =>
    if now < e.start + e.duration then some s
    else
      match s.schedule.items with
      | [] => none
      | _ :: srest =>
        some (clearRest now
          { s with
            present := { s.present with items := prest, version := (s.present.version + 1) % 32 },
            schedule := { s.schedule with items := srest, version := (s.schedule.version + 1) % 32 } })

/-- A sequence of maintenance ticks, one per clock value in the list;
`none` if any tick panics. -/
def ticks : List Nat → Service → Option Service
  | [], s => some s
  | n :: ns, s => (Service.clear n s).bind (ticks ns)

/-- The age-out condition of `Service::clear`: `present.items` is
non-empty and its first item has `start + duration ≤ now`. -/
def expiredHead (now : Nat) (s : Service) : Prop :=
  ∃ e rest, s.present.items = e :: rest ∧ e.start + e.duration ≤ now

/-- Present items mirror a prefix of schedule items by `event_id`
(spec §4.2 invariant list). -/
def PrefixMirror (p sch : List EitItem) : Prop :=
  p.map EitItem.event_id = (sch.map EitItem.event_id).take p.length

/-- The engine invariant carried through ticks: the prefix mirror plus the
`present.items.len() ≤ 2` bound. -/
def Inv (s : Service) : Prop :=
  PrefixMirror s.present.items s.schedule.items ∧ s.present.items.length ≤ 2

/-! EIT builder (initial materialization, `wrap` lines 577-585). -/

/-- An EPG event as stored by the loader (epg crate): timing, codepage and
text payload.  The engine reads `start`, `stop`, writes `codepage`, and
hands the whole event to `EitItem::from`. -/
structure Event where
  event_id : Nat
  start : Nat
  stop : Nat
  codepage : Nat
  title : String
  description : String
  category : String
  language : String
deriving DecidableEq

/-- `EitItem::from(&Event)` (mpegts crate, external): carries the event's
timing as `start`/`duration = stop - start`, initial status 0, and the
event's codepage and text (spec §3). -/
def eitItemFrom (e : Event) : EitItem :=
  { event_id := e.event_id
    start := e.start
    duration := e.stop - e.start
    status := 0
    codepage := e.codepage
    title := e.title
    description := e.description }

/-- The materialization walk of `wrap` (lines 577-585): break at the first
event with `start > last_time`; for events with `stop > current_time`,
set `event.codepage` to the service codepage (mutating the EPG store) and
push `EitItem::from` of the mutated event.  Returns the post-walk event
list and the schedule items. -/
def eitBuild (cp now last : Nat) : List Event → List Event × List EitItem
  | [] => ([], [])
  | e :: rest =>
    if last < e.start then (e :: rest, [])
    else if now < e.stop then
      ({ e with codepage := cp } :: (eitBuild cp now last rest).1,
        eitItemFrom { e with codepage := cp } :: (eitBuild cp now last rest).2)
    else
      (e :: (eitBuild cp now last rest).1, (eitBuild cp now last rest).2)

/-! Buffer padding and the paced drain loop. -/

/-- `fill_null_ts` (lines 512-522) on buffer lengths: `BLOCK_SIZE = 1316`,
`ts::PACKET_SIZE = 188`; appends `(1316 - len % 1316) / 188` NULL packets
of 188 bytes unless the length is already block-aligned. -/
def fill_null_ts (len : Nat) : Nat :=
  if len % 1316 = 0 then len else len + (1316 - len % 1316) / 188 * 188

/-- One engine cycle's buffer length: starting from the cleared buffer,
each append of `k` bytes (one PSI packet run) is followed by
`fill_null_ts` (lines 611-652). -/
def cycleLen (ks : List Nat) : Nat :=
  ks.foldl (fun acc k => fill_null_ts (acc + k)) 0

/-- The drain loop (lines 663-675) on a buffer of `r` bytes: each step
sends `min(remaining, 1316)` bytes; returns the list of slice lengths
passed to `Output::send`. -/
def drainChunks (r : Nat) : List Nat :=
  if _h : min r 1316 < r then min r 1316 :: drainChunks (r - min r 1316)
  else [min r 1316]
termination_by r
decreasing_by
  omega

/-! Output sink opening (`Output::open`, lines 113-127). -/

/-- Whether `pre` is an initial run of `s` (character-by-character). -/
def beginsWith : List Char → List Char → Bool
  | [], _ => true
  | _ :: _, [] => false
  | a :: pre, b :: s => a = b && beginsWith pre s

/-- Rust `str::splitn(2, sep)` on character lists: split at the first
occurrence of `sep` only; one element if `sep` does not occur. -/
def splitn2 (sep : List Char) : List Char → List (List Char)
  | [] => [[]]
  | c :: rest =>
    if beginsWith sep (c :: rest) then [[], List.drop sep.length (c :: rest)]
    else
      match splitn2 sep rest with
      | [] => [[c]]
      | a :: more => (c :: a) :: more

def sepChars : List Char := [':', '/', '/']

def udpChars : List Char := ['u', 'd', 'p']

def fileChars : List Char := ['f', 'i', 'l', 'e']

/-- Result of `Output::open`: the destination handed to `UdpSocket::open`
or `File::create` (external calls, abstracted), the `UnknownOutput` error,
or the out-of-bounds `dst[1]` panic. -/
inductive OpenResult where
  | udpOut : List Char → OpenResult
  | fileOut : List Char → OpenResult
  | errUnknownOutput : OpenResult
  | panicked : OpenResult
deriving DecidableEq

/-- `Output::open` (lines 113-127): split the address once at `"://"`,
dispatch on the first component, index `dst[1]` for the destination. -/
def outputOpen (addr : List Char) : OpenResult :=
  match splitn2 sepChars addr with
  | [] => OpenResult.panicked
  | first :: more =>
    if first = udpChars then
      match more with
      | d :: _ => OpenResult.udpOut d
      | [] => OpenResult.panicked
    else if first = fileChars then
      match more with
      | d :: _ => OpenResult.fileOut d
      | [] => OpenResult.panicked
    else OpenResult.errUnknownOutput

/-! Rate setup (`wrap`, lines 596-602). -/

/-- The configured or defaulted EIT rate in kbit/s:
`instance.eit_rate.unwrap_or_else(|| service_list.len() * 30)`. -/
def default_rate (eit_rate : Option Nat) (services : Nat) : Nat :=
  match eit_rate with
  | some r => r
  | none => services * 30

/-- `rate_limit = rate * 1000 / 8` bytes per pacing window. -/
def rate_limit_bytes (eit_rate : Option Nat) (services : Nat) : Nat :=
  default_rate eit_rate services * 1000 / 8

/-- `pps = 1_000_000_000 * BLOCK_SIZE / rate_limit` nanoseconds; integer
division by zero panics in Rust, modelled as `none`. -/
def pps_nanos (rl : Nat) : Option Nat :=
  if rl = 0 then none else some (1000000000 * 1316 / rl)

/-! Helper lemmas about `promote`, `clearRest` and the mirror invariant. -/

lemma promote_schedule (s : Service) : (promote s).schedule = s.schedule := by
  unfold promote
  split
  · rfl
  · split <;> rfl

lemma promote_present_version (s : Service) :
    (promote s).present.version = s.present.version := by
  unfold promote
  split
  · rfl
  · split <;> rfl

lemma mirror_nil (sch : List EitItem) : PrefixMirror [] sch := by
  simp [PrefixMirror]

lemma mirror_cons_self (it : EitItem) (st : List EitItem) :
    PrefixMirror [it] (it :: st) := by
  simp [PrefixMirror]

lemma mirror_cons_nonempty (e : EitItem) (rest sch : List EitItem)
    (hm : PrefixMirror (e :: rest) sch) :
    ∃ x st, sch = x :: st ∧ e.event_id = x.event_id := by
  cases sch with
  | nil => simp [PrefixMirror] at hm
  | cons x st =>
    refine ⟨x, st, rfl, ?_⟩
    simp [PrefixMirror] at hm
    exact hm.1

lemma mirror_tail (e x : EitItem) (rest st : List EitItem)
    (hm : PrefixMirror (e :: rest) (x :: st)) :
    PrefixMirror rest st := by
  simp [PrefixMirror] at hm ⊢
  exact hm.2

lemma promote_mirror (s : Service)
    (hm : PrefixMirror s.present.items s.schedule.items) :
    PrefixMirror (promote s).present.items (promote s).schedule.items := by
  unfold promote
  split
  · exact hm
  · split
    · exact hm
    case _ hp it st hsch =>
      simp only [hsch]
      exact mirror_cons_self it st

lemma promote_len (s : Service) (hl : s.present.items.length ≤ 1) :
    (promote s).present.items.length ≤ 1 := by
  unfold promote
  split
  · exact hl
  · split
    · exact hl
    · simp

lemma clearRest_schedule (now : Nat) (s : Service) :
    (clearRest now s).schedule = s.schedule := by
  unfold clearRest
  split
  · exact promote_schedule s
  · split
    · exact promote_schedule s
    · split <;> exact promote_schedule s

lemma clearRest_present_version (now : Nat) (s : Service) :
    (clearRest now s).present.version = s.present.version := by
  unfold clearRest
  split
  · exact promote_present_version s
  · split
    · exact promote_present_version s
    · split <;> exact promote_present_version s

/-- If the result of `clearRest` has a first present item whose start has
passed, that item's status is 4 (the mark-running assignment ran). -/
lemma clearRest_status (now : Nat) (s : Service) (e1 : EitItem) (rest1 : List EitItem)
    (hp : (clearRest now s).present.items = e1 :: rest1) (hs : e1.start ≤ now) :
    e1.status = 4 := by
  unfold clearRest at hp
  split at hp
  case _ hpp => rw [hpp] at hp; cases hp
  case _ e rest hpp =>
    split at hp
    case isTrue hlt =>
      rw [hpp] at hp
      cases hp
      omega
    case isFalse hge =>
      split at hp <;>
      · simp only [List.cons.injEq] at hp
        obtain ⟨h1, _⟩ := hp
        subst h1
        rfl

/-- If `promote` leaves `present.items` empty, both tables were empty and
the state is unchanged. -/
lemma promote_present_empty (s : Service) (h : (promote s).present.items = []) :
    promote s = s ∧ s.present.items = [] ∧ s.schedule.items = [] := by
  unfold promote at h ⊢
  split at h
  case _ heq => rw [heq] at h; cases h
  case _ heq =>
    split at h
    case _ heq2 =>
      rw [heq, heq2]
      exact ⟨rfl, rfl, rfl⟩
    case _ it st heq2 => simp at h

/-- If `clearRest` leaves `present.items` empty, it did nothing: the input
already had both tables empty. -/
lemma clearRest_present_empty (now : Nat) (s : Service)
    (h : (clearRest now s).present.items = []) :
    clearRest now s = s ∧ s.present.items = [] ∧ s.schedule.items = [] := by
  unfold clearRest at h
  split at h
  case _ hpp =>
    obtain ⟨hps, hp1, hs1⟩ := promote_present_empty s hpp
    refine ⟨?_, hp1, hs1⟩
    unfold clearRest
    rw [hpp]
    exact hps
  case _ e rest hpp =>
    split at h
    case isTrue hlt => rw [hpp] at h; cases h
    case isFalse hge => split at h <;> simp at h

/-- `clearRest` preserves the engine invariant, provided the present list
it receives has at most one item (which `Service.clear` guarantees under
the invariant). -/
lemma clearRest_inv (now : Nat) (s : Service)
    (hm : PrefixMirror s.present.items s.schedule.items)
    (hl : s.present.items.length ≤ 1) :
    Inv (clearRest now s) := by
  have hm1 := promote_mirror s hm
  have hl1 := promote_len s hl
  unfold clearRest
  split
  case _ hpp =>
    exact ⟨hm1, by omega⟩
  case _ e rest hpp =>
    have hrest : rest = [] := by
      rw [hpp] at hl1
      cases rest with
      | nil => rfl
      | cons a b => simp only [List.length_cons] at hl1; omega
    subst hrest
    rw [hpp] at hm1
    obtain ⟨x, st, hsch, heid⟩ := mirror_cons_nonempty e [] (promote s).schedule.items hm1
    split
    case isTrue hlt =>
      exact ⟨promote_mirror s hm, by rw [hpp]; simp⟩
    case isFalse hge =>
      split
      case _ =>
        rename_i it hget
        rw [hsch] at hget
        simp only [List.get?_cons_succ] at hget
        cases st with
        | nil => cases hget
        | cons y st2 =>
          simp only [List.get?_cons_zero, Option.some.injEq] at hget
          subst hget
          constructor
          · show PrefixMirror ({ e with status := 4 } :: ([] ++ [y])) (promote s).schedule.items
            rw [hsch]
            simp [PrefixMirror, heid]
          · simp
      case _ =>
        rename_i hget
        constructor
        · show PrefixMirror ({ e with status := 4 } :: []) (promote s).schedule.items
          rw [hsch]
          simp [PrefixMirror, heid]
        · simp

/-- `Service.clear` never panics under the invariant, and preserves it. -/
lemma clear_preserves_inv (now : Nat) (s : Service) (h : Inv s) :
    ∃ s2, Service.clear now s = some s2 ∧ Inv s2 := by
  obtain ⟨hm, hl⟩ := h
  unfold Service.clear
  split
  case _ hp =>
    exact ⟨_, rfl, clearRest_inv now s hm (by rw [hp]; simp)⟩
  case _ e prest hp =>
    split
    case isTrue hnow =>
      exact ⟨s, rfl, hm, hl⟩
    case isFalse hnow =>
      split
      case _ hsch2 =>
        rw [hp, hsch2] at hm
        simp [PrefixMirror] at hm
      case _ y srest hsch2 =>
        rw [hp, hsch2] at hm
        refine ⟨_, rfl, ?_⟩
        apply clearRest_inv
        · show PrefixMirror prest srest
          exact mirror_tail e y prest srest hm
        · show prest.length ≤ 1
          rw [hp] at hl
          simp only [List.length_cons] at hl
          omega

/-- Tick sequences from an invariant state never panic and keep the
invariant. -/
lemma ticks_inv (nows : List Nat) (s : Service) (h : Inv s) :
    ∃ s2, ticks nows s = some s2 ∧ Inv s2 := by
  induction nows generalizing s with
  | nil => exact ⟨s, rfl, h⟩
  | cons n ns ih =>
    obtain ⟨s1, hc, h1⟩ := clear_preserves_inv n s h
    obtain ⟨s2, ht, h2⟩ := ih s1 h1
    exact ⟨s2, by simp [ticks, hc, ht], h2⟩

/-- If both tables are empty, `clearRest` is the identity. -/
lemma clearRest_both_empty (now : Nat) (s : Service)
    (h1 : s.present.items = []) (h2 : s.schedule.items = []) :
    clearRest now s = s := by
  have hpr : promote s = s := by
    unfold promote
    rw [h1, h2]
  unfold clearRest
  rw [hpr, h1]

/-! Concrete states used by counterexamples and witnesses. -/

def eEit0 : Eit := ⟨0, 0, 0, 0, 0, []⟩

/-- Event 1: runs on `[0, 10)`. -/
def evtA : EitItem := ⟨1, 0, 10, 0, 0, "", ""⟩

/-- Event 2: runs on `[10, 20)`. -/
def evtB : EitItem := ⟨2, 10, 10, 0, 0, "", ""⟩

/-- Event 2 with the running status set. -/
def evtB4 : EitItem := ⟨2, 10, 10, 4, 0, "", ""⟩

/-- An event on `[10, 20)` used by the C1 counterexample. -/
def it10 : EitItem := ⟨1, 10, 10, 0, 0, "", ""⟩

/-- Freshly built service: present empty, one future event scheduled. -/
def cexBuilt : Service := ⟨0, 0, 0, 0, eEit0, { eEit0 with items := [it10] }⟩

/-- The same service after a tick at clock 5 promoted `it10` (start 10 > 5). -/
def cexServ : Service := { cexBuilt with present := { eEit0 with items := [it10] } }

/-- C1 counterexample: the claim says `status` becomes 4 exactly when
`start ≤ now`, including an item promoted on an earlier tick with
`start > now` whose start has since passed.  The code instead returns
early whenever the first present item is unexpired: at clock 15 the
promoted item `it10` is currently running (10 ≤ 15 < 20) yet the tick
leaves the state unchanged and its status is 0, not 4.  The state is
reachable: two ticks (clocks 5 and 15) from the freshly built state. -/
theorem clear_running_status_cex :
    ticks [5, 15] cexBuilt = some cexServ ∧
    Service.clear 15 cexServ = some cexServ ∧
    cexServ.present.items = [it10] ∧
    it10.start ≤ 15 ∧ 15 < it10.start + it10.duration ∧ it10.status = 0 := by
  refine ⟨by decide, by decide, rfl, by decide, by decide, rfl⟩

/-- C1 (amended): `Service::clear` marks the first present item as running
(`status = 4`) only on ticks that pass the entry guard.  If at entry
`present.items` is empty or its first item has expired
(`start + duration ≤ now`), then after the tick, whenever the present list
is non-empty and its first item has `start ≤ now`, that item's status is 4.
A tick whose first present item is unexpired returns immediately and never
touches `status`, so an item promoted on an earlier tick with `start > now`
keeps status 0 after its start passes (the counterexample). -/
theorem clear_marks_running (now : Nat) (s s1 : Service)
    (hpre : s.present.items = [] ∨
      ∃ e rest, s.present.items = e :: rest ∧ e.start + e.duration ≤ now)
    (h : Service.clear now s = some s1)
    (e1 : EitItem) (rest1 : List EitItem)
    (hp : s1.present.items = e1 :: rest1) (hs : e1.start ≤ now) :
    e1.status = 4 := by
  unfold Service.clear at h
  split at h
  case _ hpe =>
    injection h with h
    subst h
    exact clearRest_status now s e1 rest1 hp hs
  case _ e prest hpe =>
    split at h
    case isTrue hnow =>
      rcases hpre with h0 | ⟨e2, rest2, hpe2, hex⟩
      · rw [h0] at hpe; cases hpe
      · rw [hpe2] at hpe
        injection hpe with h1 h2
        subst h1
        omega
    case isFalse hnow =>
      split at h
      · cases h
      · injection h with h
        subst h
        exact clearRest_status now _ e1 rest1 hp hs

/-- Witness state for the C1 amended theorem: built service with one
already-started event. -/
def w1item : EitItem := ⟨1, 0, 10, 0, 0, "", ""⟩

def w1run : EitItem := ⟨1, 0, 10, 4, 0, "", ""⟩

def w1s0 : Service := ⟨0, 0, 0, 0, eEit0, { eEit0 with items := [w1item] }⟩

def w1s1 : Service :=
  ⟨0, 0, 0, 0, { eEit0 with items := [w1run] }, { eEit0 with items := [w1item] }⟩

theorem clear_marks_running_witness : w1run.status = 4 :=
  clear_marks_running 5 w1s0 w1s1 (Or.inl rfl) (by decide) w1run [] (by decide) (by decide)

/-- C3: on a completed tick, the age-out condition (present non-empty with
`start + duration ≤ now`) holds exactly when both version counters are
bumped mod 32; when it holds the first items of both tables are removed
(the post-state is `clearRest` of the popped-and-bumped state, and the
final schedule items are the original schedule's tail); in every other
case both versions and the schedule items are unchanged. -/
theorem clear_ageout_versions (now : Nat) (s s1 : Service)
    (h : Service.clear now s = some s1) :
    (expiredHead now s ↔
      s1.present.version = (s.present.version + 1) % 32 ∧
      s1.schedule.version = (s.schedule.version + 1) % 32) ∧
    (expiredHead now s →
      ∃ e prest x srest,
        s.present.items = e :: prest ∧ s.schedule.items = x :: srest ∧
        s1 = clearRest now
          { s with
            present := { s.present with items := prest, version := (s.present.version + 1) % 32 },
            schedule := { s.schedule with items := srest, version := (s.schedule.version + 1) % 32 } } ∧
        s1.schedule.items = srest) ∧
    (¬ expiredHead now s →
      s1.present.version = s.present.version ∧
      s1.schedule.version = s.schedule.version ∧
      s1.schedule.items = s.schedule.items) := by
  unfold Service.clear at h
  split at h
  case _ hpe =>
    injection h with h
    subst h
    have hne : ¬ expiredHead now s := by
      rintro ⟨e, rest, hpr, _⟩
      rw [hpe] at hpr
      cases hpr
    refine ⟨⟨fun hexp => absurd hexp hne, ?_⟩,
      fun hexp => absurd hexp hne, fun _ => ⟨clearRest_present_version now s, ?_, ?_⟩⟩
    · rintro ⟨h1, _⟩
      exfalso
      rw [clearRest_present_version] at h1
      omega
    · rw [clearRest_schedule]
    · rw [clearRest_schedule]
  case _ e prest hpe =>
    split at h
    case isTrue hnow =>
      injection h with h
      subst h
      have hne : ¬ expiredHead now s := by
        rintro ⟨e2, rest2, hpr, hex⟩
        rw [hpe] at hpr
        injection hpr with h1 h2
        subst h1
        omega
      refine ⟨⟨fun hexp => absurd hexp hne, ?_⟩,
        fun hexp => absurd hexp hne, fun _ => ⟨rfl, rfl, rfl⟩⟩
      rintro ⟨h1, _⟩
      exfalso
      omega
    case isFalse hnow =>
      have hexp : expiredHead now s := ⟨e, prest, hpe, by omega⟩
      split at h
      case _ hsch => cases h
      case _ x srest hsch =>
        injection h with h
        subst h
        refine ⟨⟨fun _ => ⟨?_, ?_⟩, fun _ => hexp⟩,
          fun _ => ⟨e, prest, x, srest, hpe, hsch, rfl, ?_⟩,
          fun hne => absurd hexp hne⟩
        · rw [clearRest_present_version]
        · rw [clearRest_schedule]
        · rw [clearRest_schedule]

/-- Witness state for C3: one expired event in both tables. -/
def c3s : Service := ⟨0, 0, 0, 0, ⟨0, 0, 0, 0, 0, [evtA]⟩, ⟨0, 0, 0, 0, 0, [evtA]⟩⟩

def c3s1 : Service := ⟨0, 0, 0, 0, ⟨0, 0, 0, 0, 1, []⟩, ⟨0, 0, 0, 0, 1, []⟩⟩

theorem clear_ageout_versions_witness :
    expiredHead 25 c3s ↔
      (c3s1.present.version = (c3s.present.version + 1) % 32 ∧
       c3s1.schedule.version = (c3s.schedule.version + 1) % 32) :=
  (clear_ageout_versions 25 c3s c3s1 (by decide)).1

/-- C5: starting from an initially built state (present empty, as the EIT
builder leaves it), every sequence of ticks completes without panicking —
in particular the `schedule.items.remove(0)` of the age-out branch never
runs on an empty vector — and afterwards the present items are a prefix
mirror of the schedule items by `event_id`. -/
theorem ticks_mirror (nows : List Nat) (s0 : Service) (h0 : s0.present.items = []) :
    ∃ s2, ticks nows s0 = some s2 ∧
      PrefixMirror s2.present.items s2.schedule.items := by
  obtain ⟨s2, ht, hm, _⟩ :=
    ticks_inv nows s0 ⟨by rw [h0]; exact mirror_nil _, by rw [h0]; simp⟩
  exact ⟨s2, ht, hm⟩

/-- Witness state for C5/C6: built service with two adjacent events. -/
def w5s0 : Service := ⟨0, 0, 0, 0, eEit0, { eEit0 with items := [evtA, evtB] }⟩

theorem ticks_mirror_witness :
    ∃ s2, ticks [0, 25] w5s0 = some s2 ∧
      PrefixMirror s2.present.items s2.schedule.items :=
  ticks_mirror [0, 25] w5s0 rfl

/-- C6: starting from an initially built state (present empty), after any
sequence of completed ticks the present item count is 0, 1 or 2. -/
theorem ticks_present_len (nows : List Nat) (s0 s2 : Service)
    (h0 : s0.present.items = []) (h : ticks nows s0 = some s2) :
    s2.present.items.length = 0 ∨ s2.present.items.length = 1 ∨
      s2.present.items.length = 2 := by
  obtain ⟨s3, ht, _, hl⟩ :=
    ticks_inv nows s0 ⟨by rw [h0]; exact mirror_nil _, by rw [h0]; simp⟩
  rw [h] at ht
  injection ht with ht
  subst ht
  omega

/-- Result of ticking `w5s0` at clocks 0 and 25. -/
def w6s2 : Service := ⟨0, 0, 0, 0, ⟨0, 0, 0, 0, 1, [evtB4]⟩, ⟨0, 0, 0, 0, 1, [evtB]⟩⟩

theorem ticks_present_len_witness :
    w6s2.present.items.length = 0 ∨ w6s2.present.items.length = 1 ∨
      w6s2.present.items.length = 2 :=
  ticks_present_len [0, 25] w5s0 w6s2 rfl (by decide)

/-- Stalled-clock state for the C7 counterexample: both scheduled events
have already ended at clock 25. -/
def c7s0 : Service := ⟨0, 0, 0, 0, eEit0, { eEit0 with items := [evtA, evtB] }⟩

/-- C7 counterexample: the claim says running `Service::clear` twice at a
fixed clock equals running it once, for every state.  At clock 25 from
`c7s0` (both events already ended) the first run promotes and marks the
stale first event; the second run at the same clock ages it out and bumps
the versions, so the results differ. -/
theorem clear_idem_cex :
    ((Service.clear 25 c7s0).bind (Service.clear 25)) ≠ Service.clear 25 c7s0 := by
  decide

/-- C7 (amended): the second invocation at the same clock is the identity
whenever the first invocation leaves `present.items` empty or leaves a
first present item that has not yet expired (`now < start + duration`).
This covers every state in which at most one pending event has ended; the
exception forced by the counterexample is a first run that promotes an
already-expired event, which the second run ages out. -/
theorem clear_idem_amended (now : Nat) (s s1 : Service)
    (h : Service.clear now s = some s1)
    (h2 : s1.present.items = [] ∨
      ∃ e rest, s1.present.items = e :: rest ∧ now < e.start + e.duration) :
    Service.clear now s1 = some s1 := by
  rcases h2 with hemp | ⟨e, rest, hp, hlt⟩
  · have hsch : s1.schedule.items = [] := by
      unfold Service.clear at h
      split at h
      case _ hpe =>
        injection h with h
        subst h
        obtain ⟨hcr, _, hs⟩ := clearRest_present_empty now s hemp
        rw [hcr]
        exact hs
      case _ e prest hpe =>
        split at h
        case isTrue hnow =>
          injection h with h
          subst h
          rw [hpe] at hemp
          cases hemp
        case isFalse hnow =>
          split at h
          · cases h
          case _ x srest hsch2 =>
            injection h with h
            subst h
            obtain ⟨hcr, _, hsa⟩ := clearRest_present_empty now _ hemp
            rw [hcr]
            exact hsa
    unfold Service.clear
    rw [hemp]
    rw [clearRest_both_empty now s1 hemp hsch]
  · unfold Service.clear
    rw [hp]
    simp [hlt]

/-- Witness states for the C7 amended theorem: one pending event whose
start has passed but which is still running at clock 12. -/
def w7s0 : Service := ⟨0, 0, 0, 0, eEit0, { eEit0 with items := [evtB] }⟩

def w7s1 : Service :=
  ⟨0, 0, 0, 0, { eEit0 with items := [evtB4] }, { eEit0 with items := [evtB] }⟩

theorem clear_idem_amended_witness : Service.clear 12 w7s1 = some w7s1 :=
  clear_idem_amended 12 w7s0 w7s1 (by decide) (Or.inr ⟨evtB4, [], by decide, by decide⟩)

/-! Buffer alignment (C2). -/

/-- Padding a buffer that holds whole TS packets (length divisible by 188)
reaches a whole number of 1316-byte blocks. -/
lemma fill_null_ts_block (n : Nat) (h : 188 ∣ n) : 1316 ∣ fill_null_ts n := by
  obtain ⟨m, rfl⟩ := h
  unfold fill_null_ts
  have hmod : 188 * m % 1316 = 188 * (m % 7) := by
    have h7 : (1316 : Nat) = 188 * 7 := by norm_num
    rw [h7, Nat.mul_mod_mul_left]
  split
  case isTrue hz => exact Nat.dvd_of_mod_eq_zero hz
  case isFalse hz =>
    rw [hmod] at hz ⊢
    have ht : m % 7 < 7 := Nat.mod_lt m (by norm_num)
    have hsub : 1316 - 188 * (m % 7) = 188 * (7 - m % 7) := by omega
    rw [hsub, Nat.mul_div_cancel_left _ (by norm_num : (0 : Nat) < 188)]
    omega

/-- Every append of whole TS packets followed by `fill_null_ts` keeps the
cycle buffer length a multiple of 1316 bytes. -/
lemma cycleLen_go_block (ks : List Nat) (acc : Nat) (ha : 1316 ∣ acc)
    (hk : ∀ k ∈ ks, 188 ∣ k) :
    1316 ∣ ks.foldl (fun a k => fill_null_ts (a + k)) acc := by
  induction ks generalizing acc with
  | nil => simpa using ha
  | cons k ks ih =>
    simp only [List.foldl_cons]
    apply ih
    · apply fill_null_ts_block
      have h188 : (188 : Nat) ∣ acc := dvd_trans ⟨7, by norm_num⟩ ha
      exact Nat.dvd_add h188 (hk k (List.mem_cons_self k ks))
    · exact fun k2 hk2 => hk k2 (List.mem_cons_of_mem k hk2)

/-- The drain loop sends the whole buffer: the chunk lengths sum to the
buffer length. -/
lemma drainChunks_sum (r : Nat) : (drainChunks r).sum = r := by
  induction r using Nat.strong_induction_on with
  | _ r ih =>
    rw [drainChunks]
    split
    case isTrue h =>
      rw [List.sum_cons, ih (r - min r 1316) (by omega)]
      omega
    case isFalse h =>
      simp only [List.sum_cons, List.sum_nil]
      omega

/-- On a non-empty block-aligned buffer every drain chunk is exactly one
1316-byte block. -/
lemma drainChunks_block (r : Nat) (h1 : 1316 ∣ r) (h0 : 0 < r) :
    ∀ c ∈ drainChunks r, c = 1316 := by
  induction r using Nat.strong_induction_on with
  | _ r ih =>
    rw [drainChunks]
    split
    case isTrue h =>
      intro c hc
      rcases List.mem_cons.mp hc with hc | hc
      · omega
      · exact ih (r - min r 1316) (by omega) (by omega) (by omega) c hc
    case isFalse h =>
      intro c hc
      simp only [List.mem_singleton] at hc
      omega

/-- C2: if every chunk the engine appends to the TS buffer is a whole
number of 188-byte TS packets (the PSI demuxer contract) and each append
is followed by `fill_null_ts`, then the cycle buffer length is a multiple
of 1316, the drain loop sends the whole buffer, every slice passed to
`Output::send` on a non-empty buffer is exactly 1316 bytes, and the
cycle's output byte count is a multiple of 188. -/
theorem cycle_block_aligned (ks : List Nat) (hk : ∀ k ∈ ks, 188 ∣ k) :
    1316 ∣ cycleLen ks ∧
    (drainChunks (cycleLen ks)).sum = cycleLen ks ∧
    188 ∣ (drainChunks (cycleLen ks)).sum ∧
    (0 < cycleLen ks → ∀ c ∈ drainChunks (cycleLen ks), c = 1316) := by
  have hb : 1316 ∣ cycleLen ks := cycleLen_go_block ks 0 ⟨0, rfl⟩ hk
  refine ⟨hb, drainChunks_sum (cycleLen ks), ?_, fun h0 => drainChunks_block _ hb h0⟩
  rw [drainChunks_sum (cycleLen ks)]
  exact dvd_trans ⟨7, by norm_num⟩ hb

theorem cycle_block_aligned_witness :
    1316 ∣ cycleLen [188, 376] ∧
    (drainChunks (cycleLen [188, 376])).sum = cycleLen [188, 376] ∧
    188 ∣ (drainChunks (cycleLen [188, 376])).sum ∧
    (0 < cycleLen [188, 376] → ∀ c ∈ drainChunks (cycleLen [188, 376]), c = 1316) :=
  cycle_block_aligned [188, 376] (by decide)

/-! Initial materialization (C4, C8). -/

/-- C4: when the channel's events are sorted by `start` (and well-formed,
`start ≤ stop`), the materialization walk produces exactly the events with
`stop > now` and `start ≤ last_time`, in order, each converted with the
service codepage stamped; hence every produced schedule item satisfies
`now < start + duration` and `start ≤ last_time`. -/
theorem eitBuild_window (cp now last : Nat) (evs : List Event)
    (hs : evs.Pairwise (fun a b => a.start ≤ b.start))
    (hw : ∀ e ∈ evs, e.start ≤ e.stop) :
    (eitBuild cp now last evs).2 =
      (evs.filter (fun e => decide (now < e.stop) && decide (e.start ≤ last))).map
        (fun e => eitItemFrom { e with codepage := cp }) ∧
    ∀ it ∈ (eitBuild cp now last evs).2,
      now < it.start + it.duration ∧ it.start ≤ last := by
  induction evs with
  | nil => exact ⟨rfl, fun it hit => absurd hit (by simp [eitBuild])⟩
  | cons e rest ih =>
    rw [List.pairwise_cons] at hs
    obtain ⟨hrel, hs2⟩ := hs
    have hwe : e.start ≤ e.stop := hw e (List.mem_cons_self e rest)
    have hwr : ∀ x ∈ rest, x.start ≤ x.stop :=
      fun x hx => hw x (List.mem_cons_of_mem e hx)
    obtain ⟨ih1, ih2⟩ := ih hs2 hwr
    by_cases h1 : last < e.start
    · have hfil :
          (e :: rest).filter (fun e => decide (now < e.stop) && decide (e.start ≤ last)) = [] := by
        rw [List.filter_eq_nil_iff]
        intro a ha
        rcases List.mem_cons.mp ha with rfl | ha
        · simp
          omega
        · have := hrel a ha
          simp
          omega
      constructor
      · simp only [eitBuild, if_pos h1]
        rw [hfil]
        rfl
      · intro it hit
        simp only [eitBuild, if_pos h1] at hit
        cases hit
    · by_cases h2 : now < e.stop
      · constructor
        · simp only [eitBuild, if_neg h1, if_pos h2]
          rw [List.filter_cons_of_pos (by simp; omega)]
          rw [List.map_cons, ih1]
        · intro it hit
          simp only [eitBuild, if_neg h1, if_pos h2, List.mem_cons] at hit
          rcases hit with rfl | hit
          · constructor
            · simp only [eitItemFrom]
              omega
            · simp only [eitItemFrom]
              omega
          · exact ih2 it hit
      · constructor
        · simp only [eitBuild, if_neg h1, if_neg h2]
          rw [List.filter_cons_of_neg (by simp; omega)]
          exact ih1
        · intro it hit
          simp only [eitBuild, if_neg h1, if_neg h2] at hit
          exact ih2 it hit

/-- Witness events for C4: sorted, one past, one current, one beyond the
horizon. -/
def bev1 : Event := ⟨1, 0, 3, 0, "", "", "", ""⟩

def bev2 : Event := ⟨2, 3, 20, 0, "", "", "", ""⟩

def bev3 : Event := ⟨3, 200, 300, 0, "", "", "", ""⟩

theorem eitBuild_window_witness :
    (eitBuild 5 5 100 [bev1, bev2, bev3]).2 =
      ([bev1, bev2, bev3].filter
          (fun e => decide (5 < e.stop) && decide (e.start ≤ 100))).map
        (fun e => eitItemFrom { e with codepage := 5 }) ∧
    ∀ it ∈ (eitBuild 5 5 100 [bev1, bev2, bev3]).2,
      5 < it.start + it.duration ∧ it.start ≤ 100 :=
  eitBuild_window 5 5 100 [bev1, bev2, bev3] (by decide) (by decide)

/-- Event used by the C8 counterexample: enqueued (stop 10 > now 5) with a
codepage differing from the service codepage. -/
def c8ev : Event := ⟨1, 0, 10, 0, "", "", "", ""⟩

/-- C8 counterexample: the claim says materialization leaves the EPG store
untouched, but the walk executes `event.codepage = service.codepage` on
each enqueued event: with service codepage 5 the stored event list after
the walk differs from the original. -/
theorem eitBuild_mutates_epg_cex : (eitBuild 5 5 100 [c8ev]).1 ≠ [c8ev] := by
  decide

/-- C8 (amended): materialization mutates the EPG store, and exactly so:
the post-walk event list equals the scanned prefix (the events up to the
first with `start > last_time`, i.e. `takeWhile (start ≤ last_time)`)
where every enqueued event (`stop > now`) has its `codepage` overwritten
with the service codepage and every skipped event is unchanged, followed
by the untouched remainder; the event order and count are preserved, and
no field other than `codepage` of an enqueued event changes (the rewrite
`{ e with codepage := cp }` keeps every other field). -/
theorem eitBuild_codepage_overwrite (cp now last : Nat) (evs : List Event) :
    (eitBuild cp now last evs).1 =
      (evs.takeWhile (fun e => decide (e.start ≤ last))).map
        (fun e => if now < e.stop then { e with codepage := cp } else e) ++
      evs.dropWhile (fun e => decide (e.start ≤ last)) ∧
    (eitBuild cp now last evs).1.length = evs.length := by
  induction evs with
  | nil => exact ⟨rfl, rfl⟩
  | cons e rest ih =>
    obtain ⟨ih1, ih2⟩ := ih
    by_cases h1 : last < e.start
    · have hb : decide (e.start ≤ last) = false := by
        simp
        omega
      constructor
      · simp only [eitBuild, if_pos h1, List.takeWhile_cons, List.dropWhile_cons, hb,
          Bool.false_eq_true, if_false, List.map_nil, List.nil_append]
      · simp only [eitBuild, if_pos h1]
    · have hb : decide (e.start ≤ last) = true := by
        simp
        omega
      by_cases h2 : now < e.stop
      · constructor
        · simp only [eitBuild, if_neg h1, if_pos h2, List.takeWhile_cons, List.dropWhile_cons,
            hb, if_true, List.map_cons, List.cons_append]
          rw [ih1]
        · simp only [eitBuild, if_neg h1, if_pos h2, List.length_cons]
          rw [ih2]
      · constructor
        · simp only [eitBuild, if_neg h1, if_neg h2, List.takeWhile_cons, List.dropWhile_cons,
            hb, if_true, List.map_cons, List.cons_append]
          rw [ih1]
        · simp only [eitBuild, if_neg h1, if_neg h2, List.length_cons]
          rw [ih2]

/-! Rate setup (C9). -/

/-- C9 counterexample: the claim says the defaulted rate is clamped to a
lower bound and that `rate_limit > 0` for every service count including
zero.  The code has no clamp: with `eit-rate` unset and zero services the
rate is 0, `rate_limit = 0`, and the `pps` division by zero panics. -/
theorem rate_zero_services_cex :
    rate_limit_bytes none 0 = 0 ∧
    ¬ 0 < rate_limit_bytes none 0 ∧
    pps_nanos (rate_limit_bytes none 0) = none := by
  refine ⟨rfl, by decide, rfl⟩

/-- C9 (amended): with `eit-rate` unset the pacing rate is exactly
`30 kbit/s · service_count` with no lower-bound clamp; the byte-rate
window is `rate_limit = rate · 1000 / 8 = 3750 · service_count` bytes
(exact integer arithmetic), and for every positive service count
`rate_limit > 0` and the inter-block delay is
`1_000_000_000 · 1316 / rate_limit` nanoseconds.  At zero services
`rate_limit = 0` and the delay computation divides by zero (the
counterexample). -/
theorem rate_default_amended (n : Nat) (h : 0 < n) :
    default_rate none n = n * 30 ∧
    rate_limit_bytes none n = n * 3750 ∧
    0 < rate_limit_bytes none n ∧
    pps_nanos (rate_limit_bytes none n) = some (1000000000 * 1316 / (n * 3750)) := by
  have h2 : rate_limit_bytes none n = n * 3750 := by
    show n * 30 * 1000 / 8 = n * 3750
    omega
  refine ⟨rfl, h2, by omega, ?_⟩
  rw [h2]
  unfold pps_nanos
  rw [if_neg (by positivity)]

theorem rate_default_amended_witness :
    default_rate none 2 = 2 * 30 ∧
    rate_limit_bytes none 2 = 2 * 3750 ∧
    0 < rate_limit_bytes none 2 ∧
    pps_nanos (rate_limit_bytes none 2) = some (1000000000 * 1316 / (2 * 3750)) :=
  rate_default_amended 2 (by decide)

/-! Output sink opening (C10). -/

/-- C10: `Output::open` is not total: on the exact inputs `"udp"` and
`"file"` (scheme word with no `"://"` separator) the split yields a single
component and the `dst[1]` indexing panics instead of returning an error;
and the `UnknownOutput` error is returned only when the first split
component is neither `"udp"` nor `"file"`. -/
theorem outputOpen_spec :
    (outputOpen udpChars = OpenResult.panicked ∧
     outputOpen fileChars = OpenResult.panicked) ∧
    ∀ addr first, outputOpen addr = OpenResult.errUnknownOutput →
      (splitn2 sepChars addr).head? = some first →
      first ≠ udpChars ∧ first ≠ fileChars := by
  refine ⟨⟨by decide, by decide⟩, ?_⟩
  intro addr first h hf
  unfold outputOpen at h
  cases hd : splitn2 sepChars addr with
  | nil => rw [hd] at hf; cases hf
  | cons f more =>
    simp only [hd] at h hf
    simp only [List.head?_cons, Option.some.injEq] at hf
    subst hf
    by_cases h1 : f = udpChars
    · rw [if_pos h1] at h
      cases more with
      | nil => simp at h
      | cons d more2 => simp at h
    · rw [if_neg h1] at h
      by_cases h2 : f = fileChars
      · rw [if_pos h2] at h
        cases more with
        | nil => simp at h
        | cons d more2 => simp at h
      · exact ⟨h1, h2⟩

theorem outputOpen_spec_witness :
    ['h', 't', 't', 'p'] ≠ udpChars ∧ ['h', 't', 't', 'p'] ≠ fileChars :=
  outputOpen_spec.2 ['h', 't', 't', 'p', ':', '/', '/', 'x'] ['h', 't', 't', 'p']
    (by decide) (by decide)

end EitStream
